import Mathlib

/-!
Shallow embedding of the file-format sniffing engine in
`lib/galaxy/datatypes/sniff.py`: `get_headers`, `is_column_based` and
`guess_ext` (detector chain plus binary/tabular/text fallback).

A file is modelled by its raw content, a `String`; the Python 2 line
iterator, `str.split`, `str.rstrip('\n\r')` and `ord` are embedded
explicitly over the character list of the content.  The source only ever
passes single-character separators (`'\t'`, `' '`) or `None` to
`split`, so a separator is modelled as `Option Char`, `none` standing
for Python's `None` (split on whitespace runs, dropping empty tokens).
A detector ("datatype" in the source) carries its probe `sniff`, which
may raise (modelled by `Except Unit Bool`, `.error ()` standing for any
raised exception), and its identifier `file_ext`.
-/

namespace Sniff

/-- Split a character list at every character satisfying `p`, keeping
empty pieces: the semantics of Python's `s.split(sep)` for a
single-character separator (`p` is then equality with it). -/
def splitPred (p : Char → Bool) : List Char → List (List Char)
  | [] => [[]]
  | c :: cs =>
    if p c then [] :: splitPred p cs
    else
      match splitPred p cs with
      | [] => [[c]]
      | t :: ts => (c :: t) :: ts

/-- Characters Python's `str.split(None)` treats as whitespace. -/
def isPySpace (c : Char) : Bool :=
  c = ' ' || c = '\t' || c = '\n' || c = '\r' || c = '\x0b' || c = '\x0c'

/-- Python `line.split(None)`: split on whitespace, discarding the empty
tokens that runs of whitespace and the ends of the line produce. -/
def pySplitNone (s : String) : List String :=
  ((splitPred isPySpace s.data).filter (fun t => t ≠ [])).map String.mk

/-- Python `line.split(sep)`; `none` is Python's `None` separator. -/
def pySplit (s : String) : Option Char → List String
  | some sep => (splitPred (fun c => c = sep) s.data).map String.mk
  | none => pySplitNone s

/-- Python `line.rstrip('\n\r')`: strip trailing newline and
carriage-return characters only. -/
def rstripNR (s : String) : String :=
  String.mk ((s.data.reverse.dropWhile (fun c => c = '\n' || c = '\r')).reverse)

/-- Reassemble the pieces of a split at `'\n'` into the lines Python 2
file iteration yields: every line keeps its trailing `'\n'` except a
final unterminated one; the empty piece after a final `'\n'` yields no
line. -/
def pyLinesAux : List (List Char) → List String
  | [] => []
  | [p] => if p = [] then [] else [String.mk p]
  | p :: ps => String.mk (p ++ ['\n']) :: pyLinesAux ps

/-- The lines `for line in file(fname)` yields, given the file content. -/
def pyLines (s : String) : List String :=
  pyLinesAux (splitPred (fun c => c = '\n') s.data)

/-- One row of a header block: the line with trailing `\n`/`\r` stripped,
then split by the separator (`line = line.rstrip('\n\r')` followed by
`line.split(sep)`). -/
def headerRow (sep : Option Char) (l : String) : List String :=
  pySplit (rstripNR l) sep

/-- The loop of `get_headers`: append the split row, then
`if idx == count: break`. -/
def headersLoop (sep : Option Char) (count : Nat) : List String → Nat → List (List String)
  | [], _ => []
  | l :: ls, idx =>
    headerRow sep l :: (if idx == count then [] else headersLoop sep count ls (idx + 1))

/-- `get_headers(fname, sep, count=60)`: the first `count`+1 lines, each
split by `sep`.  The source defaults `count` to 60; callers here pass it
explicitly. -/
def get_headers (content : String) (sep : Option Char) (count : Nat) : List (List String) :=
  headersLoop sep count (pyLines content) 0

/-- Python `hdr[0].startswith('#')` for the single-character prefix the
source tests. -/
def startsWithHash (f : String) : Bool :=
  match f.data with
  | c :: _ => c = '#'
  | [] => false

/-- The row filter both loops of `is_column_based` apply:
`hdr and hdr[0] and not hdr[0].startswith('#')`. -/
def isQualRow : List String → Bool
  | [] => false
  | f :: _ => f != "" && !(startsWithHash f)

/-- First loop of `is_column_based`: walk the rows after the skip, stop
at the first qualifying row; `count` becomes its field count when that
count exceeds 1, and stays 0 otherwise. -/
def firstQualCount : List (List String) → Nat
  | [] => 0
  | hdr :: rest =>
    if isQualRow hdr then (if hdr.length > 1 then hdr.length else 0)
    else firstQualCount rest

/-- Second loop of `is_column_based`: every qualifying row must have
exactly `count` fields (`if len(hdr) != count: return False`). -/
def allQualCountEq (count : Nat) : List (List String) → Bool
  | [] => true
  | hdr :: rest =>
    if isQualRow hdr then (hdr.length == count && allQualCountEq count rest)
    else allQualCountEq count rest

/-- `is_column_based(fname, sep='\t', skip=0)` from the source: headers
are read with the default 60-line cap, the first `skip` rows are dropped
in both loops (`headers[skip:]`), and `count < 2` forces `False`. -/
def is_column_based (content : String) (sep : Option Char) (skip : Nat) : Bool :=
  let headers := get_headers content sep 60
  if headers.isEmpty then false
  else
    let count := firstQualCount (headers.drop skip)
    if count < 2 then false
    else allQualCountEq count (headers.drop skip)

/-- A format detector: its probe `sniff` (which may raise: `.error ()`)
and its identifier `file_ext`. -/
structure Datatype where
  sniff : String → Except Unit Bool
  file_ext : String

/-- The detector loop of `guess_ext`: `try: if datatype.sniff(fname):
return datatype.file_ext except: pass`.  `none` means the chain was
exhausted without a match. -/
def sniff_chain : List Datatype → String → Option String
  | [], _ => none
  | d :: ds, content =>
    match d.sniff content with
    | Except.ok true => some d.file_ext
    | _ => sniff_chain ds content

/-- How many probes the detector loop invokes: every detector up to and
including the first match, or all of them when none matches. -/
def probesConsulted : List Datatype → String → Nat
  | [], _ => 0
  | d :: ds, content =>
    match d.sniff content with
    | Except.ok true => 1
    | _ => 1 + probesConsulted ds content

/-- Python 2 `ord(char)` where `char` ranges over the tokens of a
`None`-split row: defined only on single-character strings, `none`
modelling the `TypeError` raised on any other argument. -/
def pyOrd (s : String) : Option Nat :=
  match s.data with
  | [c] => some c.toNat
  | _ => none

/-- Inner loop of the binary test over one header row, threading
`is_binary`: `if not ord(char) > 128: is_binary = False`, and on an
exception `is_binary = False; break`. -/
def scanRow : Bool → List String → Bool
  | b, [] => b
  | b, tok :: toks =>
    match pyOrd tok with
    | some n => scanRow (if n > 128 then b else false) toks
    | none => false

/-- The whole binary test of `guess_ext`: `is_binary` starts `True` and
the rows are scanned in order. -/
def is_binary_scan (headers : List (List String)) : Bool :=
  List.foldl scanRow true headers

/-- `guess_ext(fname, sniff_order)`: first the detector chain, then the
fallback — `'data'` when the binary scan of the `None`-split headers
holds, else `'tabular'` when `is_column_based(fname, '\t', 1)` holds,
else `'txt'`. -/
def guess_ext (content : String) (sniff_order : List Datatype) : String :=
  match sniff_chain sniff_order content with
  | some ext => ext
  | none =>
    if is_binary_scan (get_headers content none 60) then "data"
    else if is_column_based content (some '\t') 1 then "tabular"
    else "txt"

/-- The binary scan as the specification words it: an inspection error
counts toward (not against) the binary verdict for that token.  Stated
for comparison with `is_binary_scan`, which the source implements. -/
def is_binary_scan_specWords (headers : List (List String)) : Bool :=
  headers.all (fun row => row.all (fun tok =>
    match pyOrd tok with
    | some n => decide (128 < n)
    | none => true))

end Sniff

namespace Sniff

/-! ### Helper lemmas -/

theorem headersLoop_eq_take_map (sep : Option Char) (count : Nat) :
    ∀ (ls : List String) (idx : Nat), idx ≤ count →
      headersLoop sep count ls idx = (ls.take (count + 1 - idx)).map (headerRow sep)
  | [], idx, _ => by simp [headersLoop]
  | l :: ls, idx, h => by
    have hpos : count + 1 - idx = (count - idx) + 1 := by omega
    rw [headersLoop, hpos, List.take_succ_cons, List.map_cons]
    by_cases hc : idx = count
    · have : count - idx = 0 := by omega
      simp [hc, this]
    · have hlt : idx + 1 ≤ count := by omega
      have := headersLoop_eq_take_map sep count ls (idx + 1) hlt
      have harith : count + 1 - (idx + 1) = count - idx := by omega
      rw [harith] at this
      simp [hc, this]

theorem get_headers_eq_take_map (content : String) (sep : Option Char) (count : Nat) :
    get_headers content sep count = ((pyLines content).take (count + 1)).map (headerRow sep) := by
  have := headersLoop_eq_take_map sep count (pyLines content) 0 (Nat.zero_le _)
  simpa [get_headers] using this

theorem get_headers_length_le (content : String) (sep : Option Char) (count : Nat) :
    (get_headers content sep count).length ≤ count + 1 := by
  rw [get_headers_eq_take_map]
  simp only [List.length_map]
  exact (List.length_take_le _ _)

theorem sniff_chain_eq_some (content : String) :
    ∀ (order : List Datatype) (e : String), sniff_chain order content = some e →
      ∃ d ∈ order, d.sniff content = Except.ok true ∧ e = d.file_ext
  | [], e, h => by simp [sniff_chain] at h
  | d :: ds, e, h => by
    rw [sniff_chain] at h
    cases hs : d.sniff content with
    | error u =>
      rw [hs] at h
      obtain ⟨d', hd', hmatch, hext⟩ := sniff_chain_eq_some content ds e h
      exact ⟨d', List.mem_cons_of_mem _ hd', hmatch, hext⟩
    | ok b =>
      cases b with
      | true =>
        rw [hs] at h
        simp only [Option.some.injEq] at h
        exact ⟨d, List.mem_cons_self _ _, hs, h.symm⟩
      | false =>
        rw [hs] at h
        obtain ⟨d', hd', hmatch, hext⟩ := sniff_chain_eq_some content ds e h
        exact ⟨d', List.mem_cons_of_mem _ hd', hmatch, hext⟩

theorem scanRow_false (row : List String) : scanRow false row = false := by
  induction row with
  | nil => rfl
  | cons tok toks ih =>
    rw [scanRow]
    cases pyOrd tok with
    | none => rfl
    | some n =>
      by_cases h : n > 128 <;> simp [h, ih]

theorem scanRow_eq_and (b : Bool) (row : List String) :
    scanRow b row = (b && scanRow true row) := by
  cases b with
  | true => simp
  | false => simp [scanRow_false]

theorem is_binary_scan_eq_all (headers : List (List String)) :
    is_binary_scan headers = headers.all (fun row => scanRow true row) := by
  rw [is_binary_scan]
  suffices h : ∀ b, List.foldl scanRow b headers = (b && headers.all (fun row => scanRow true row)) by
    simpa using h true
  induction headers with
  | nil => intro b; simp
  | cons r rs ih =>
    intro b
    rw [List.foldl_cons, ih, scanRow_eq_and b r, List.all_cons]
    cases b <;> cases scanRow true r <;> simp

theorem scanRow_true_iff (row : List String) :
    scanRow true row = true ↔ ∀ tok ∈ row, ∃ n, pyOrd tok = some n ∧ 128 < n := by
  induction row with
  | nil => simp [scanRow]
  | cons tok toks ih =>
    cases hp : pyOrd tok with
    | none =>
      simp only [scanRow, hp]
      constructor
      · intro h; exact absurd h (by simp)
      · intro h
        obtain ⟨n, hn, -⟩ := h tok (List.mem_cons_self _ _)
        rw [hp] at hn; exact absurd hn (by simp)
    | some n =>
      simp only [scanRow, hp]
      by_cases hn : n > 128
      · rw [if_pos hn, ih]
        constructor
        · intro h t ht
          rcases List.mem_cons.mp ht with rfl | ht'
          · exact ⟨n, hp, hn⟩
          · exact h t ht'
        · intro h t ht; exact h t (List.mem_cons_of_mem _ ht)
      · rw [if_neg hn, scanRow_false]
        constructor
        · intro h; exact absurd h (by simp)
        · intro h
          obtain ⟨m, hm, hm128⟩ := h tok (List.mem_cons_self _ _)
          rw [hp] at hm
          simp only [Option.some.injEq] at hm
          omega

theorem is_binary_scan_iff (headers : List (List String)) :
    is_binary_scan headers = true ↔
      ∀ row ∈ headers, ∀ tok ∈ row, ∃ n, pyOrd tok = some n ∧ 128 < n := by
  rw [is_binary_scan_eq_all, List.all_eq_true]
  constructor
  · intro h row hrow
    exact (scanRow_true_iff row).mp (h row hrow)
  · intro h row hrow
    exact (scanRow_true_iff row).mpr (h row hrow)

theorem firstQualCount_filter (hs : List (List String)) :
    firstQualCount hs =
      match hs.filter isQualRow with
      | [] => 0
      | q :: _ => if q.length > 1 then q.length else 0 := by
  induction hs with
  | nil => rfl
  | cons hdr rest ih =>
    by_cases hq : isQualRow hdr
    · rw [firstQualCount, if_pos hq, List.filter_cons_of_pos hq]
    · rw [firstQualCount, if_neg hq, List.filter_cons_of_neg hq, ih]

theorem allQualCountEq_filter (n : Nat) (hs : List (List String)) :
    allQualCountEq n hs = (hs.filter isQualRow).all (fun r => r.length == n) := by
  induction hs with
  | nil => rfl
  | cons hdr rest ih =>
    by_cases hq : isQualRow hdr
    · rw [allQualCountEq, if_pos hq, List.filter_cons_of_pos hq, List.all_cons, ih]
    · rw [allQualCountEq, if_neg hq, List.filter_cons_of_neg hq, ih]

end Sniff

namespace Sniff

/-! ### Claim theorems -/

/-- C7: `get_headers` stops after `maxLines`+1 lines have been read or at
end-of-file, whichever comes first, so the returned header block has at
most `maxLines`+1 rows (61 with the default cap of 60); each row is the
corresponding line with only trailing newline and carriage-return
characters stripped, split by the delimiter. -/
theorem C7_get_headers_cap_and_rows (content : String) (sep : Option Char) (maxLines : Nat) :
    get_headers content sep maxLines
        = ((pyLines content).take (maxLines + 1)).map (fun l => pySplit (rstripNR l) sep) ∧
      (get_headers content sep maxLines).length ≤ maxLines + 1 := by
  exact ⟨get_headers_eq_take_map content sep maxLines, get_headers_length_le content sep maxLines⟩

/-- C5: `is_column_based(path, sep, skip)` returns true iff, among the
header rows after dropping the first `skip` rows, the qualifying rows
(non-empty, non-empty first field not starting with `#`) are non-empty,
the first of them has at least 2 fields, and every qualifying row has
exactly that many fields; an empty header block (hence no qualifying
row) returns false. -/
theorem C5_is_column_based_iff (content : String) (sep : Option Char) (skip : Nat) :
    is_column_based content sep skip = true ↔
      ∃ q qs, ((get_headers content sep 60).drop skip).filter isQualRow = q :: qs ∧
        2 ≤ q.length ∧
        ∀ r ∈ ((get_headers content sep 60).drop skip).filter isQualRow,
          r.length = q.length := by
  simp only [is_column_based]
  cases hF : ((get_headers content sep 60).drop skip).filter isQualRow with
  | nil =>
    simp only [firstQualCount_filter, hF]
    constructor
    · intro h
      exfalso
      by_cases hE : (get_headers content sep 60).isEmpty = true
      · rw [if_pos hE] at h; exact Bool.false_ne_true h
      · rw [if_neg hE] at h
        norm_num at h
    · rintro ⟨q, qs, heq, -, -⟩
      exact List.noConfusion heq
  | cons q qs =>
    have hqmem : q ∈ (get_headers content sep 60).drop skip := by
      have : q ∈ ((get_headers content sep 60).drop skip).filter isQualRow := by
        rw [hF]; exact List.mem_cons_self _ _
      exact List.mem_of_mem_filter this
    have hne : (get_headers content sep 60).isEmpty = false := by
      cases hH : get_headers content sep 60 with
      | nil => rw [hH] at hqmem; simp at hqmem
      | cons a l => rfl
    rw [if_neg (by rw [hne]; exact Bool.false_ne_true)]
    rw [firstQualCount_filter, allQualCountEq_filter]
    simp only [hF]
    by_cases hq2 : q.length > 1
    · rw [if_pos hq2, if_neg (by omega)]
      constructor
      · intro h
        refine ⟨q, qs, rfl, by omega, ?_⟩
        intro r hr
        have hb := List.all_eq_true.mp h r hr
        simpa using hb
      · rintro ⟨q', qs', heq, -, hall⟩
        have hinj := (List.cons.injEq q qs q' qs').mp heq
        rw [List.all_eq_true]
        intro r hr
        have hrl := hall r hr
        rw [← hinj.1] at hrl
        simp [hrl]
    · rw [if_neg hq2, if_pos (by omega)]
      constructor
      · intro h; exact absurd h (by simp)
      · rintro ⟨q', qs', heq, h2, -⟩
        have hinj := (List.cons.injEq q qs q' qs').mp heq
        exfalso
        rw [← hinj.1] at h2
        omega

/-- C10: the verdict of `is_column_based` (default 60-line cap, hence 61
read lines) depends only on the first 61 lines of the file: two files
whose first 61 lines agree get the same verdict, so a column-count
mismatch that first occurs after line 61 is never detected. -/
theorem C10_first_61_lines_determine (c1 c2 : String) (sep : Option Char) (skip : Nat)
    (h : (pyLines c1).take 61 = (pyLines c2).take 61) :
    is_column_based c1 sep skip = is_column_based c2 sep skip := by
  have h61 : (pyLines c1).take (60 + 1) = (pyLines c2).take (60 + 1) := h
  have hH : get_headers c1 sep 60 = get_headers c2 sep 60 := by
    rw [get_headers_eq_take_map, get_headers_eq_take_map, h61]
  simp only [is_column_based, hH]

/-- C6: an empty file has no header rows at all, so when it reaches the
fallback classifier (no detector matched) the binary scan's loop body
never runs, `is_binary` stays true, and it is classified with the binary
fallback identifier `'data'`. -/
theorem C6_empty_file_is_binary (order : List Datatype)
    (h : sniff_chain order "" = none) :
    get_headers "" none 60 = [] ∧ guess_ext "" order = "data" := by
  refine ⟨rfl, ?_⟩
  simp only [guess_ext, h]
  rfl

theorem C6_witness : get_headers "" none 60 = [] ∧ guess_ext "" [] = "data" :=
  C6_empty_file_is_binary [] rfl

end Sniff

namespace Sniff

theorem sniff_chain_append_no_match (content : String) (rest : List Datatype) :
    ∀ pre : List Datatype, (∀ p ∈ pre, ¬ p.sniff content = Except.ok true) →
      sniff_chain (pre ++ rest) content = sniff_chain rest content
  | [], _ => rfl
  | p :: ps, h => by
    rw [List.cons_append, sniff_chain]
    cases hp : p.sniff content with
    | error u =>
      exact sniff_chain_append_no_match content rest ps
        (fun q hq => h q (List.mem_cons_of_mem _ hq))
    | ok b =>
      cases b with
      | true => exact absurd hp (h p (List.mem_cons_self _ _))
      | false =>
        exact sniff_chain_append_no_match content rest ps
          (fun q hq => h q (List.mem_cons_of_mem _ hq))

theorem probesConsulted_append_no_match (content : String) (rest : List Datatype) :
    ∀ pre : List Datatype, (∀ p ∈ pre, ¬ p.sniff content = Except.ok true) →
      probesConsulted (pre ++ rest) content = pre.length + probesConsulted rest content
  | [], _ => by simp
  | p :: ps, h => by
    rw [List.cons_append, probesConsulted]
    cases hp : p.sniff content with
    | error u =>
      show 1 + probesConsulted (ps ++ rest) content
          = (p :: ps).length + probesConsulted rest content
      rw [probesConsulted_append_no_match content rest ps
        (fun q hq => h q (List.mem_cons_of_mem _ hq))]
      simp only [List.length_cons]
      omega
    | ok b =>
      cases b with
      | true => exact absurd hp (h p (List.mem_cons_self _ _))
      | false =>
        show 1 + probesConsulted (ps ++ rest) content
            = (p :: ps).length + probesConsulted rest content
        rw [probesConsulted_append_no_match content rest ps
          (fun q hq => h q (List.mem_cons_of_mem _ hq))]
        simp only [List.length_cons]
        omega

/-- C1: for every readable file and detector list, `guess_ext` returns
exactly one format identifier — the identifier of a matching detector or
one of the three fallback identifiers (`'data'`, `'tabular'`, `'txt'`)
— and, detectors carrying non-empty identifiers, the result is
non-empty.  The embedding is a total function: every exception a probe
raises is swallowed (`Except.error`), so the call never raises on a
readable file. -/
theorem C1_classify_total (content : String) (order : List Datatype)
    (hne : ∀ d ∈ order, d.file_ext ≠ "") :
    guess_ext content order ≠ "" ∧
      ((∃ d ∈ order, d.sniff content = Except.ok true ∧ guess_ext content order = d.file_ext)
        ∨ guess_ext content order = "data"
        ∨ guess_ext content order = "tabular"
        ∨ guess_ext content order = "txt") := by
  cases hc : sniff_chain order content with
  | some e =>
    obtain ⟨d, hd, hm, he⟩ := sniff_chain_eq_some content order e hc
    have hg : guess_ext content order = d.file_ext := by
      simp only [guess_ext, hc]; exact he
    exact ⟨by rw [hg]; exact hne d hd, Or.inl ⟨d, hd, hm, hg⟩⟩
  | none =>
    have hg : guess_ext content order =
        (if is_binary_scan (get_headers content none 60) then "data"
         else if is_column_based content (some '\t') 1 then "tabular" else "txt") := by
      simp only [guess_ext, hc]
    by_cases hb : is_binary_scan (get_headers content none 60) = true
    · rw [hg, if_pos hb]
      exact ⟨by decide, Or.inr (Or.inl rfl)⟩
    · by_cases ht : is_column_based content (some '\t') 1 = true
      · rw [hg, if_neg hb, if_pos ht]
        exact ⟨by decide, Or.inr (Or.inr (Or.inl rfl))⟩
      · rw [hg, if_neg hb, if_neg ht]
        exact ⟨by decide, Or.inr (Or.inr (Or.inr rfl))⟩

theorem C1_witness :
    guess_ext "" ([] : List Datatype) ≠ "" ∧
      ((∃ d ∈ ([] : List Datatype), d.sniff "" = Except.ok true ∧ guess_ext "" [] = d.file_ext)
        ∨ guess_ext "" [] = "data"
        ∨ guess_ext "" [] = "tabular"
        ∨ guess_ext "" [] = "txt") :=
  C1_classify_total "" [] (by simp)

/-- C2, counterexample: on the file `"ab"` the `None`-split headers hold
the single two-character token `"ab"`; inspecting it raises
(`pyOrd "ab" = none`), the claim's reading of the scan (errors count
toward binary, `is_binary_scan_specWords`) calls the file binary, but
the source sets `is_binary = False` on the exception and classifies the
file `'txt'`, not `'data'`: an inspection error contributes against, not
toward, the binary verdict. -/
theorem C2_counterexample :
    get_headers "ab" none 60 = [["ab"]] ∧
      pyOrd "ab" = none ∧
      is_binary_scan_specWords (get_headers "ab" none 60) = true ∧
      is_binary_scan (get_headers "ab" none 60) = false ∧
      guess_ext "ab" [] = "txt" := by decide

/-- C2, amended: when no detector matches, the file is classified with
the binary fallback identifier `'data'` iff every sampled token of the
`None`-split header rows is a single character of code point above 128
— so no inspection error occurred; an error raised while inspecting a
token contributes against the binary verdict (it sets `is_binary` to
false and stops scanning that row). -/
theorem C2_amended_binary_iff (content : String) (order : List Datatype)
    (h : sniff_chain order content = none) :
    (guess_ext content order = "data" ↔
      ∀ row ∈ get_headers content none 60, ∀ tok ∈ row,
        ∃ n, pyOrd tok = some n ∧ 128 < n) := by
  rw [← is_binary_scan_iff]
  simp only [guess_ext, h]
  by_cases hb : is_binary_scan (get_headers content none 60) = true
  · rw [if_pos hb]
    exact ⟨fun _ => hb, fun _ => rfl⟩
  · rw [if_neg hb]
    constructor
    · intro hcontra
      by_cases ht : is_column_based content (some '\t') 1 = true
      · rw [if_pos ht] at hcontra; exact absurd hcontra (by decide)
      · rw [if_neg ht] at hcontra; exact absurd hcontra (by decide)
    · intro hcontra; exact absurd hcontra hb

theorem C2_witness :
    sniff_chain [] "" = none ∧
      (guess_ext "" [] = "data" ↔
        ∀ row ∈ get_headers "" none 60, ∀ tok ∈ row,
          ∃ n, pyOrd tok = some n ∧ 128 < n) :=
  ⟨rfl, C2_amended_binary_iff "" [] rfl⟩

/-- C3: when the detectors before position `i` do not match and the
detectors at positions `i` and `j > i` (here `d` after `pre`, and `e`
after `mid`) both match, classification returns the identifier of the
earlier one, `d`; exactly `pre.length + 1` probes are invoked, and `e`
sits at a strictly later position, so no detector after the first match
— `e` in particular — is consulted. -/
theorem C3_first_match_wins (content : String) (pre mid post : List Datatype) (d e : Datatype)
    (hpre : ∀ p ∈ pre, ¬ p.sniff content = Except.ok true)
    (hd : d.sniff content = Except.ok true)
    (he : e.sniff content = Except.ok true) :
    guess_ext content (pre ++ d :: mid ++ e :: post) = d.file_ext ∧
      probesConsulted (pre ++ d :: mid ++ e :: post) content = pre.length + 1 ∧
      pre.length + 1 ≤ pre.length + 1 + mid.length := by
  have hchain : sniff_chain (pre ++ d :: mid ++ e :: post) content = some d.file_ext := by
    rw [List.append_assoc, sniff_chain_append_no_match content _ pre hpre,
      List.cons_append, sniff_chain, hd]
  have hcount : probesConsulted (pre ++ d :: mid ++ e :: post) content = pre.length + 1 := by
    rw [List.append_assoc, probesConsulted_append_no_match content _ pre hpre,
      List.cons_append, probesConsulted, hd]
  refine ⟨?_, hcount, Nat.le_add_right _ _⟩
  simp only [guess_ext, hchain]

def dTrueBed : Datatype := ⟨fun _ => Except.ok true, "bed"⟩

def dTrueGff : Datatype := ⟨fun _ => Except.ok true, "gff"⟩

theorem C3_witness :
    guess_ext "" [dTrueBed, dTrueGff] = "bed" ∧
      probesConsulted [dTrueBed, dTrueGff] "" = 1 ∧ (1 : Nat) ≤ 1 :=
  C3_first_match_wins "" [] [] [] dTrueBed dTrueGff (by simp) rfl rfl

/-- C4: a detector whose probe always raises is interchangeable, for
classification purposes, with one whose probe always returns false: the
raised error is swallowed, counts as no match for that detector alone,
and the chain continues, so the overall result is unchanged. -/
theorem C4_raising_probe_no_match (content : String) (pre post : List Datatype) (d1 d2 : Datatype)
    (h1 : ∀ f, d1.sniff f = Except.error ())
    (h2 : ∀ f, d2.sniff f = Except.ok false) :
    guess_ext content (pre ++ d1 :: post) = guess_ext content (pre ++ d2 :: post) := by
  have hchain : ∀ pr : List Datatype,
      sniff_chain (pr ++ d1 :: post) content = sniff_chain (pr ++ d2 :: post) content := by
    intro pr
    induction pr with
    | nil =>
      rw [List.nil_append, List.nil_append, sniff_chain, sniff_chain, h1 content, h2 content]
    | cons p ps ih =>
      rw [List.cons_append, List.cons_append, sniff_chain, sniff_chain]
      cases hp : p.sniff content with
      | error u => exact ih
      | ok b =>
        cases b with
        | true => rfl
        | false => exact ih
  simp only [guess_ext, hchain pre]

def dRaise : Datatype := ⟨fun _ => Except.error (), "h5"⟩

def dNever : Datatype := ⟨fun _ => Except.ok false, "h5"⟩

theorem C4_witness :
    guess_ext "" [dRaise] = guess_ext "" [dNever] :=
  C4_raising_probe_no_match "" [] [] dRaise dNever (fun _ => rfl) (fun _ => rfl)

end Sniff

namespace Sniff

theorem pyOrd_none_of_two_le (s : String) (h : 2 ≤ s.length) : pyOrd s = none := by
  obtain ⟨data⟩ := s
  change 2 ≤ data.length at h
  cases data with
  | nil => rfl
  | cons c cs =>
    cases cs with
    | nil => simp only [List.length_cons, List.length_nil] at h; omega
    | cons c2 cs2 => rfl

theorem scanRow_false_of_mem_none (tok : String) (hord : pyOrd tok = none) :
    ∀ (row : List String), tok ∈ row → ∀ b, scanRow b row = false
  | [], htok, _ => (List.not_mem_nil tok htok).elim
  | t :: ts, htok, b => by
    rcases List.mem_cons.mp htok with rfl | hmem
    · simp only [scanRow, hord]
    · cases hp : pyOrd t with
      | none => simp only [scanRow, hp]
      | some n =>
        simp only [scanRow, hp]
        exact scanRow_false_of_mem_none tok hord ts hmem _

/-- C8, counterexample: the file `"é\tâ\né\tâ"` has two rows, both
splitting on tab into the same 2 fields with non-empty, non-`#` first
fields, and no detector matches (empty sniff order) — yet `guess_ext`
returns `'data'`, not `'tabular'`: every whitespace-delimited token is a
single character of code point above 128, so the binary test that runs
before the column check classifies the file binary. -/
theorem C8_counterexample :
    2 ≤ (pyLines "é\tâ\né\tâ").length ∧
      (∀ l ∈ pyLines "é\tâ\né\tâ",
        (headerRow (some '\t') l).length = 2 ∧ isQualRow (headerRow (some '\t') l) = true) ∧
      sniff_chain [] "é\tâ\né\tâ" = none ∧
      guess_ext "é\tâ\né\tâ" [] = "data" := by decide

/-- C8, amended: for every file of at least two rows whose rows all
split on tab into the same column count `k ≥ 2` with non-empty,
non-`#` first fields, when no detector in the sniff order matches *and
the preceding fallback binary test is negative*, `guess_ext` returns
the tabular fallback identifier; the fallback applies the column
checker with delimiter tab and `skip = 1`, so the first line is always
skipped for this check. -/
theorem C8_amended_tabular_fallback (content : String) (order : List Datatype) (k : Nat)
    (hchain : sniff_chain order content = none)
    (hbin : is_binary_scan (get_headers content none 60) = false)
    (hrows : 2 ≤ (pyLines content).length)
    (hk : 2 ≤ k)
    (hall : ∀ l ∈ pyLines content,
      (headerRow (some '\t') l).length = k ∧ isQualRow (headerRow (some '\t') l) = true) :
    guess_ext content order = "tabular" := by
  have hH : get_headers content (some '\t') 60
      = ((pyLines content).take 61).map (headerRow (some '\t')) :=
    get_headers_eq_take_map content (some '\t') 60
  have hmem : ∀ r ∈ get_headers content (some '\t') 60,
      r.length = k ∧ isQualRow r = true := by
    intro r hr
    rw [hH] at hr
    obtain ⟨l, hl, rfl⟩ := List.mem_map.mp hr
    exact hall l (List.mem_of_mem_take hl)
  have hlenH : 2 ≤ (get_headers content (some '\t') 60).length := by
    rw [hH, List.length_map, List.length_take]
    omega
  have hcb : is_column_based content (some '\t') 1 = true := by
    simp only [is_column_based]
    have hne : (get_headers content (some '\t') 60).isEmpty = false := by
      cases hcase : get_headers content (some '\t') 60 with
      | nil => rw [hcase] at hlenH; simp at hlenH
      | cons a l => rfl
    rw [if_neg (by rw [hne]; exact Bool.false_ne_true)]
    have hdropmem : ∀ r ∈ (get_headers content (some '\t') 60).drop 1,
        r.length = k ∧ isQualRow r = true :=
      fun r hr => hmem r (List.mem_of_mem_drop hr)
    have hfilter : ((get_headers content (some '\t') 60).drop 1).filter isQualRow
        = (get_headers content (some '\t') 60).drop 1 :=
      List.filter_eq_self.mpr (fun r hr => (hdropmem r hr).2)
    have hdroplen : 1 ≤ ((get_headers content (some '\t') 60).drop 1).length := by
      rw [List.length_drop]; omega
    obtain ⟨r0, rest, hcons⟩ :
        ∃ r0 rest, (get_headers content (some '\t') 60).drop 1 = r0 :: rest := by
      cases hcase : (get_headers content (some '\t') 60).drop 1 with
      | nil => rw [hcase] at hdroplen; simp at hdroplen
      | cons a l => exact ⟨a, l, rfl⟩
    have hr0 := hdropmem r0 (by rw [hcons]; exact List.mem_cons_self _ _)
    rw [firstQualCount_filter, allQualCountEq_filter, hfilter]
    simp only [hcons]
    rw [hr0.1, if_pos (by omega : k > 1), if_neg (by omega : ¬ k < 2), List.all_eq_true]
    intro r hr
    have hr' : r ∈ (get_headers content (some '\t') 60).drop 1 := by
      rw [hcons]; exact hr
    simp [(hdropmem r hr').1]
  simp only [guess_ext, hchain]
  rw [if_neg (by rw [hbin]; exact Bool.false_ne_true), if_pos hcb]

theorem C8_witness : guess_ext "a\tb\nc\td" [] = "tabular" :=
  C8_amended_tabular_fallback "a\tb\nc\td" [] 2 rfl (by decide) (by decide) (by decide)
    (by decide)

/-- C9: the fallback binary test reads headers with delimiter `None`,
splitting each line on whitespace runs into tokens (not characters) and
discarding empty tokens; `ord` is applied to each whole token, so
whenever the sampled header rows contain a token of length at least 2,
the `ord` call raises, `is_binary` is set to false, and — when no
detector matched — the file is not classified with the binary fallback
identifier, regardless of the code points of its bytes. -/
theorem C9_multichar_token_never_binary (content : String) (order : List Datatype)
    (htok : ∃ row ∈ get_headers content none 60, ∃ tok ∈ row, 2 ≤ tok.length)
    (hchain : sniff_chain order content = none) :
    is_binary_scan (get_headers content none 60) = false ∧
      guess_ext content order ≠ "data" ∧
      ∀ row ∈ get_headers content none 60, ∀ tok ∈ row, tok ≠ "" := by
  obtain ⟨row, hrow, tok, htokmem, hlen⟩ := htok
  have hord := pyOrd_none_of_two_le tok hlen
  have hbin : is_binary_scan (get_headers content none 60) = false := by
    rw [is_binary_scan_eq_all]
    cases hall : (get_headers content none 60).all (fun r => scanRow true r) with
    | false => rfl
    | true =>
      have hrowtrue := List.all_eq_true.mp hall row hrow
      rw [scanRow_false_of_mem_none tok hord row htokmem true] at hrowtrue
      exact absurd hrowtrue (by decide)
  refine ⟨hbin, ?_, ?_⟩
  · simp only [guess_ext, hchain]
    rw [if_neg (by rw [hbin]; exact Bool.false_ne_true)]
    by_cases ht : is_column_based content (some '\t') 1 = true
    · rw [if_pos ht]; decide
    · rw [if_neg ht]; decide
  · intro r hr t ht
    rw [get_headers_eq_take_map] at hr
    obtain ⟨l, hl, rfl⟩ := List.mem_map.mp hr
    simp only [headerRow, pySplit, pySplitNone] at ht
    obtain ⟨cl, hclmem, rfl⟩ := List.mem_map.mp ht
    have hcl := (List.mem_filter.mp hclmem).2
    intro hcontra
    have hclnil : cl = [] := by
      have hd := congrArg String.data hcontra
      simpa using hd
    rw [hclnil] at hcl
    simp at hcl

theorem C9_witness :
    is_binary_scan (get_headers "ab" none 60) = false ∧
      guess_ext "ab" [] ≠ "data" ∧
      ∀ row ∈ get_headers "ab" none 60, ∀ tok ∈ row, tok ≠ "" :=
  C9_multichar_token_never_binary "ab" []
    ⟨["ab"], by decide, "ab", by decide, by decide⟩ rfl

def repLine : Nat → String
  | 0 => ""
  | n + 1 => "a\tb\n" ++ repLine n

theorem C10_witness :
    (pyLines (repLine 61 ++ "p\tq\tr")).take 61 = (pyLines (repLine 61 ++ "p")).take 61 ∧
      is_column_based (repLine 61 ++ "p\tq\tr") (some '\t') 0
        = is_column_based (repLine 61 ++ "p") (some '\t') 0 := by
  have h : (pyLines (repLine 61 ++ "p\tq\tr")).take 61
      = (pyLines (repLine 61 ++ "p")).take 61 := by decide
  exact ⟨h, C10_first_61_lines_determine _ _ _ _ h⟩

end Sniff
